import Mathlib

/-!
Verification of the nesting/packing engine of the FreeCAD Nesting Workbench.

The development shallowly embeds the Python modules under
`nestingworkbench/Tools/Nesting/` (the base packing loop, the anneal/shake
local search, the Minkowski NFP engine's caching layer, the genetic
ordered-crossover operator, and the top-level `nest` dispatch) as executable
Lean definitions, and proves the spec's claims about them.

Geometric primitives that live in external libraries (shapely polygon
booleans, Minkowski sums) are abstracted as oracle parameters; the control
flow, caching and state handling around them are embedded faithfully.
-/

namespace NestingWB

/-! ### Shape pose model

Modelled from the spec: `datatypes/shape.py` is not under `src/` (only its
importers are).  Per the spec's data model, a Shape keeps a current placement
(position + rotation angle); the polygon is always `rotate(original, angle)`
translated to the current position.  `move_to` targets the bounding-box
bottom-left corner (this is how `_spawn_part_on_sheet` and
`_apply_gravity_to_part` in `gravity_nester.py` use it, pairing it with
`bounding_box()`), so the stored position is the bounding-box bottom-left
and `bounding_box()` returns `(pos.1, pos.2, w, h)`. -/

structure Pose where
  pos : ℚ × ℚ
  angle : ℚ
  deriving DecidableEq, Repr

/-- `Shape.move_to(x, y)`: place the bounding-box bottom-left at `(x, y)`. -/
def Pose.moveTo (p : Pose) (x y : ℚ) : Pose := { p with pos := (x, y) }

/-- `Shape.move(dx, dy)`: translate by `(dx, dy)`. -/
def Pose.moveBy (p : Pose) (dx dy : ℚ) : Pose :=
  { p with pos := (p.pos.1 + dx, p.pos.2 + dy) }

/-- `Shape.set_rotation(a)`: rotate `original_polygon` to angle `a`, keeping
the current position. -/
def Pose.setAngle (p : Pose) (a : ℚ) : Pose := { p with angle := a }

/-- Python's `% 360.0` on rationals. -/
def qmod360 (a : ℚ) : ℚ := a - 360 * (⌊a / 360⌋ : ℤ)

/-- `Shape.centroid` for a given shape geometry: the centroid offset from the
bounding-box bottom-left is a function `geom` of the current angle. -/
def centroidOf (geom : ℚ → ℚ × ℚ) (p : Pose) : ℚ × ℚ :=
  (p.pos.1 + (geom p.angle).1, p.pos.2 + (geom p.angle).2)

/-! ### Anneal/shake local search (`base_nester.py` lines 95-184; the
`gravity_nester.py` override lines 114-198 is textually identical). -/

/-- The `BaseNester` fields consulted by `_anneal_part` and its two helpers
(`base_nester.py` lines 14-21). -/
structure AnnealCfg where
  anneal_steps : ℕ
  step_size : ℚ
  anneal_rotate_enabled : Bool
  anneal_translate_enabled : Bool
  anneal_random_shake_direction : Bool
  deriving DecidableEq, Repr

/-- Everything `_anneal_part` reads besides the part itself: the nester
config, the part's geometry (for `centroid`), the sheet's
`is_placement_valid` oracle, the part's `rotation_steps`, the gravity
direction, the stream of `random.uniform` shake directions (one per attempt
index), and the `random.choice([1, -1])` initial side. -/
structure AnnealCtx where
  cfg : AnnealCfg
  geom : ℚ → ℚ × ℚ
  valid : Pose → Bool
  rotation_steps : ℕ
  gravityDir : ℚ × ℚ
  randDirs : ℕ → ℚ × ℚ
  initialSide : ℤ

/-- `BaseNester._try_rotation_shake` (`base_nester.py` lines 95-110): reset
the part to the captured pre-shake pose, oscillate the rotation, and test
validity.  Returns the part state after the call and the validity result. -/
def tryRotationShake (c : AnnealCtx) (initialBl : ℚ × ℚ) (initialAngle : ℚ)
    (side : ℤ) (i : ℕ) (pose : Pose) : Pose × Bool :=
  if c.cfg.anneal_rotate_enabled ∧ c.rotation_steps > 1 then
    let p1 := (pose.moveTo initialBl.1 initialBl.2).setAngle initialAngle
    let mag : ℚ := (360 / (c.rotation_steps : ℚ)) * ((i / 2 : ℕ) + 1)
    let newAngle := qmod360 (initialAngle + mag * (side : ℚ))
    let p2 := p1.setAngle newAngle
    (p2, c.valid p2)
  else (pose, false)

/-- `BaseNester._try_translation_shake` (`base_nester.py` lines 112-135). -/
def tryTranslationShake (c : AnnealCtx) (initialBl : ℚ × ℚ) (initialAngle : ℚ)
    (side : ℤ) (i : ℕ) (pose : Pose) : Pose × Bool :=
  if c.cfg.anneal_translate_enabled then
    let p1 := (pose.moveTo initialBl.1 initialBl.2).setAngle initialAngle
    let amplitude := c.cfg.step_size * ((i / 2 : ℕ) + 1)
    let perp : ℚ × ℚ :=
      if c.cfg.anneal_random_shake_direction then
        (-(c.randDirs i).2, (c.randDirs i).1)
      else (-c.gravityDir.2, c.gravityDir.1)
    let p2 := p1.moveBy (perp.1 * amplitude * (side : ℤ)) (perp.2 * amplitude * (side : ℤ))
    (p2, c.valid p2)
  else (pose, false)

/-- One iteration of the loop body of `_anneal_part` (`base_nester.py`
lines 164-171): pick the side, then run the enabled shake kind.  When
`rotate_enabled` and `translate_enabled` do not select a unique kind,
`is_valid` stays `False` and the part is untouched. -/
def annealAttempt (c : AnnealCtx) (re te : Bool) (initialBl : ℚ × ℚ)
    (initialAngle : ℚ) (i : ℕ) (pose : Pose) : Pose × Bool :=
  let side : ℤ := if i % 2 = 0 then c.initialSide else -c.initialSide
  if re && !te then tryRotationShake c initialBl initialAngle side i pose
  else if !re && te then tryTranslationShake c initialBl initialAngle side i pose
  else (pose, false)

/-- The `for i in range(self.anneal_steps)` loop of `_anneal_part`
(`base_nester.py` lines 164-177), with `fuel` the remaining iterations.
Returns the part state together with `some (new_pos, new_angle)` on the
first valid attempt, or `none` if the loop exhausts. -/
def annealGo (c : AnnealCtx) (re te : Bool) (initialBl : ℚ × ℚ)
    (initialAngle : ℚ) : ℕ → ℕ → Pose → Pose × Option ((ℚ × ℚ) × ℚ)
  | 0, _, pose => (pose, none)
  | fuel + 1, i, pose =>
    let r := annealAttempt c re te initialBl initialAngle i pose
    if r.2 then (r.1, some (centroidOf c.geom r.1, r.1.angle))
    else annealGo c re te initialBl initialAngle fuel (i + 1) r.1

/-- `BaseNester._anneal_part` (`base_nester.py` lines 137-184): returns the
final part state and the returned `(position, rotation)` pair. -/
def annealPart (c : AnnealCtx) (re te : Bool) (pose : Pose) :
    Pose × ((ℚ × ℚ) × ℚ) :=
  if c.cfg.anneal_steps = 0 ∨
      (!c.cfg.anneal_rotate_enabled && !c.cfg.anneal_translate_enabled) = true ∨
      (!re && !te) = true then
    (pose, (centroidOf c.geom pose, pose.angle))
  else
    match annealGo c re te pose.pos pose.angle c.cfg.anneal_steps 0 pose with
    | (p, some res) => (p, res)
    | (p, none) =>
      ((p.moveTo pose.pos.1 pose.pos.2).setAngle pose.angle,
       (centroidOf c.geom pose, pose.angle))

/-! ### Base packing loop (`base_nester.py` lines 11-93)

`Sheet` and `PlacedPart` are Modelled from the spec: `datatypes/sheet.py`
and `datatypes/placed_part.py` are not under `src/`.  Per the spec, a Sheet
is an ordinal id, fixed width/height, and the list of PlacedParts in
acceptance order; `add_part` appends.  The geometric
`Sheet.is_placement_valid` check and the subclass strategy
`_try_place_part_on_sheet` are abstracted as oracle parameters; the
strategy returns the final pose of the part on success (the Python
strategies move the part in place and return the same object, so identity
is preserved by construction). -/

structure Shape where
  id : ℕ
  area : ℚ
  pose : Pose
  deriving DecidableEq, Repr

structure PlacedPart where
  shape : Shape
  deriving DecidableEq, Repr

structure Sheet where
  id : ℕ
  width : ℚ
  height : ℚ
  parts : List PlacedPart
  deriving DecidableEq, Repr

/-- `Sheet.add_part`: append a `PlacedPart` (insertion order = acceptance
order).  Modelled from the spec: the occupied-area union it also maintains
is not needed by the claims and is abstracted into the validity oracle. -/
def Sheet.addPart (s : Sheet) (p : PlacedPart) : Sheet :=
  { s with parts := s.parts ++ [p] }

/-- `BaseNester._attempt_placement_on_sheet` (`base_nester.py` lines 28-45):
run the strategy; on a returned placement, re-check
`sheet.is_placement_valid` and only then `add_part`.  An invalid returned
placement is discarded (the Python code prints a warning) and the method
fails.  `some sheet'` plays the role of `True` (with the updated sheet),
`none` of `False`. -/
def attemptPlacementOnSheet (valid : Sheet → Shape → Bool)
    (strategy : Shape → Sheet → Option Pose) (part : Shape) (sheet : Sheet) :
    Option Sheet :=
  match strategy part sheet with
  | some q =>
    if valid sheet { part with pose := q } then
      some (sheet.addPart ⟨{ part with pose := q }⟩)
    else none
  | none => none

/-- The `for sheet in self.sheets` loop of `nest` (`base_nester.py` lines
64-67): try each existing sheet in creation order, stopping at the first
that accepts the part. -/
def tryExistingSheets (valid : Sheet → Shape → Bool)
    (strategy : Shape → Sheet → Option Pose) (part : Shape) :
    List Sheet → Option (List Sheet)
  | [] => none
  | s :: rest =>
    match attemptPlacementOnSheet valid strategy part s with
    | some s' => some (s' :: rest)
    | none => (tryExistingSheets valid strategy part rest).map (s :: ·)

/-- The `while self.parts_to_place` loop of `nest` (`base_nester.py` lines
59-81): place each part on an existing sheet if possible, otherwise open a
fresh sheet (id = current sheet count) and try there; if that fails too the
part goes to the unplaced list and the fresh sheet is dropped. -/
def nestLoop (valid : Sheet → Shape → Bool)
    (strategy : Shape → Sheet → Option Pose) (width height : ℚ) :
    List Sheet → List Shape → List Sheet × List Shape
  | sheets, [] => (sheets, [])
  | sheets, p :: rest =>
    match tryExistingSheets valid strategy p sheets with
    | some sheets' => nestLoop valid strategy width height sheets' rest
    | none =>
      match attemptPlacementOnSheet valid strategy p ⟨sheets.length, width, height, []⟩ with
      | some s' => nestLoop valid strategy width height (sheets ++ [s']) rest
      | none =>
        ((nestLoop valid strategy width height sheets rest).1,
         p :: (nestLoop valid strategy width height sheets rest).2)

/-- `BaseNester._sort_parts_by_area` (`base_nester.py` lines 84-86):
stable sort, largest area first. -/
def sortPartsByArea (l : List Shape) : List Shape :=
  l.mergeSort (fun a b => decide (b.area ≤ a.area))

/-- `BaseNester.nest` (`base_nester.py` lines 47-81). -/
def nest (valid : Sheet → Shape → Bool)
    (strategy : Shape → Sheet → Option Pose) (width height : ℚ)
    (parts : List Shape) : List Sheet × List Shape :=
  nestLoop valid strategy width height [] (sortPartsByArea parts)

/-- The part ids placed on one sheet, in acceptance order. -/
def sheetPartIds (s : Sheet) : List ℕ := s.parts.map (fun pp => pp.shape.id)

/-- All part ids placed across a list of sheets. -/
def sheetsPartIds (ss : List Sheet) : List ℕ := (ss.map sheetPartIds).flatten

/-- Every placed part passed the sheet's validity check against exactly the
sheet state at the moment it was accepted (its predecessors). -/
def validAtAcceptance (valid : Sheet → Shape → Bool) (s : Sheet) : Prop :=
  ∀ (i : ℕ) (pp : PlacedPart), s.parts[i]? = some pp →
    valid { s with parts := s.parts.take i } pp.shape = true

/-! ### Minkowski NFP engine caching layer (`minkowski_engine.py`)

The polygon type is a parameter `α`; the actual geometric computation (the
Minkowski sum / convex decomposition / hole handling in
`minkowski_utils.py`, which is not under `src/`, and in the GPU kernel) is
an oracle `NfpKey → Except String (Option α)` — `Except.error` models a
raised exception, `Option.none` a computed-but-empty NFP (`master_nfp is
None`).  The candidate-point discretization attached to a computed NFP is
not consulted by any claim and is abstracted away. -/

/-- The global `Shape.nfp_cache` key (`minkowski_engine.py` lines 91-98). -/
structure NfpKey where
  placedLabel : String
  candLabel : String
  relAngle : ℤ
  spacing : ℚ
  deflection : ℚ
  simplification : ℚ
  deriving DecidableEq, Repr

/-- A value stored in `Shape.nfp_cache`: a computed NFP dict
(`{"polygon": ..., "exterior_points": ...}`), the empty dict `{}` used when
the computation succeeded with no restriction, or the
`{'error': msg}` sentinel. -/
inductive NfpData (α : Type) where
  | nfp (polygon : α)
  | empty
  | err (msg : String)
  deriving DecidableEq, Repr

/-- Python truthiness of the stored dict: only the empty dict `{}` is
falsy; both a computed-NFP dict and the error sentinel are truthy. -/
def NfpData.truthy {α : Type} : NfpData α → Bool
  | .empty => false
  | _ => true

/-- The global NFP cache (Python dict): lookup returns the most recent
binding, so prepending models overwriting assignment. -/
abbrev NfpCache (α : Type) : Type := List (NfpKey × NfpData α)

def cacheFind {α : Type} (c : NfpCache α) (k : NfpKey) : Option (NfpData α) :=
  (c.find? (fun e => decide (e.1 = k))).map (·.2)

/-- Result of one `_calculate_and_cache_nfp[_gpu]` call: the returned dict,
the cache afterwards, how many times a geometry backend was invoked, and
the log lines emitted. -/
structure CalcResult (α : Type) where
  data : NfpData α
  cache : NfpCache α
  geometryCalls : ℕ
  log : List String
  deriving DecidableEq, Repr

def NfpData.ofComputed {α : Type} : Option α → NfpData α
  | some p => .nfp p
  | none => .empty

/-- The try/except body of `_calculate_and_cache_nfp` (`minkowski_engine.py`
lines 169-245 after the cache check): compute, on exception log and build
the `{'error': ...}` sentinel, then store the outcome in the cache. -/
def calcNfpFresh {α : Type} (compute : NfpKey → Except String (Option α))
    (cache : NfpCache α) (key : NfpKey) : CalcResult α :=
  match compute key with
  | .ok opt => ⟨.ofComputed opt, (key, .ofComputed opt) :: cache, 1, []⟩
  | .error e => ⟨.err e, (key, .err e) :: cache, 1, ["Error calculating NFP: " ++ e]⟩

/-- `MinkowskiEngine._calculate_and_cache_nfp` (`minkowski_engine.py` lines
163-245).  The entry check is `if cached_nfp_data:` — Python truthiness —
so a cached empty dict falls through to recomputation. -/
def calculateAndCacheNfp {α : Type} (compute : NfpKey → Except String (Option α))
    (cache : NfpCache α) (key : NfpKey) : CalcResult α :=
  match cacheFind cache key with
  | some d => if d.truthy then ⟨d, cache, 0, []⟩ else calcNfpFresh compute cache key
  | none => calcNfpFresh compute cache key

/-- The try/except body of `_calculate_and_cache_nfp_gpu`
(`minkowski_engine.py` lines 256-407 after the cache check): on a GPU
exception, log and return the CPU path's result for the same inputs
(which re-runs the CPU pipeline and does the caching itself). -/
def calcNfpFreshGpu {α : Type}
    (computeGpu computeCpu : NfpKey → Except String (Option α))
    (cache : NfpCache α) (key : NfpKey) : CalcResult α :=
  match computeGpu key with
  | .ok opt => ⟨.ofComputed opt, (key, .ofComputed opt) :: cache, 1, []⟩
  | .error e =>
    let r := calculateAndCacheNfp computeCpu cache key
    ⟨r.data, r.cache, r.geometryCalls + 1,
      ("GPU NFP Error: " ++ e ++ ". Falling back to CPU.") :: r.log⟩

/-- `MinkowskiEngine._calculate_and_cache_nfp_gpu` (`minkowski_engine.py`
lines 247-407). -/
def calculateAndCacheNfpGpu {α : Type}
    (computeGpu computeCpu : NfpKey → Except String (Option α))
    (cache : NfpCache α) (key : NfpKey) : CalcResult α :=
  match cacheFind cache key with
  | some d => if d.truthy then ⟨d, cache, 0, []⟩
              else calcNfpFreshGpu computeGpu computeCpu cache key
  | none => calcNfpFreshGpu computeGpu computeCpu cache key

/-- The fields of `MinkowskiEngine.__init__` (`minkowski_engine.py` lines
21-33) relevant to the claims. -/
structure EngineCfg where
  bin_width : ℚ
  bin_height : ℚ
  step_size : ℚ
  discretize_edges : Bool
  use_gpu : Bool
  deriving DecidableEq, Repr

def gpuUnavailableMsg : String :=
  "GPU acceleration requested but Taichi is not available. Falling back to CPU."

/-- `MinkowskiEngine.__init__`: `self.use_gpu = use_gpu and nfp_gpu_taichi
and nfp_gpu_taichi.is_available()` with `gpu_available` collapsing module
presence and `is_available()`; logs the fallback when GPU was requested but
is off.  Returns the constructed config and the emitted log lines. -/
def engineInit (bin_width bin_height step_size : ℚ) (discretize_edges : Bool)
    (use_gpu gpu_available : Bool) : EngineCfg × List String :=
  let eff := use_gpu && gpu_available
  (⟨bin_width, bin_height, step_size, discretize_edges, eff⟩,
   if use_gpu && !eff then [gpuUnavailableMsg] else [])

/-! ### `MinkowskiEngine.get_global_nfp_for` (`minkowski_engine.py` lines
50-159): the per-sheet incremental union of pairwise NFPs. -/

/-- What the loop reads from one already-placed part: its master label, its
placed rotation, and its centroid (only fed to the abstract transform). -/
structure PlacedRef where
  label : String
  angleDeg : ℤ
  centroid : ℚ × ℚ
  deriving DecidableEq, Repr

/-- The candidate part's master label and the cache-key parameters
(`part_to_place.spacing/.deflection/.simplification`). -/
structure CandInfo where
  label : String
  spacing : ℚ
  deflection : ℚ
  simplification : ℚ
  deriving DecidableEq, Repr

/-- The global-cache key built in `get_global_nfp_for` (lines 85-98):
relative angle normalized by `% 360`. -/
def nfpKeyFor (cand : CandInfo) (p : PlacedRef) (angle : ℤ) : NfpKey :=
  ⟨p.label, cand.label, (angle - p.angleDeg) % 360,
   cand.spacing, cand.deflection, cand.simplification⟩

/-- One sheet-cache entry (`sheet.nfp_cache[cache_key]`, lines 61-67): the
running union polygon (`none` models the initial empty `Polygon()`) and the
`last_part_idx` watermark.  The derived candidate `points` and `prepared`
fields are abstracted away. -/
structure SheetNfpEntry (α : Type) where
  polygon : Option α
  last_part_idx : ℕ
  deriving DecidableEq, Repr

/-- The backend selection inside `get_global_nfp_for` (lines 104-114):
`self.use_gpu` picks `_calculate_and_cache_nfp_gpu` or
`_calculate_and_cache_nfp`. -/
def globalNfpCompute {α : Type} (useGpu : Bool)
    (computeGpu computeCpu : NfpKey → Except String (Option α))
    (cache : NfpCache α) (key : NfpKey) : CalcResult α :=
  if useGpu then calculateAndCacheNfpGpu computeGpu computeCpu cache key
  else calculateAndCacheNfp computeCpu cache key

/-- The per-placed-part fetch of `get_global_nfp_for` (lines 100-114):
`nfp_data = Shape.nfp_cache.get(nfp_cache_key); if not nfp_data:` compute —
so a truthy cached dict is used as is, while a missing key or a falsy
cached empty dict triggers (re)computation.  Returns the dict, the cache
afterwards and the log lines the fetch emitted. -/
def globalNfpFetch {α : Type} (useGpu : Bool)
    (computeGpu computeCpu : NfpKey → Except String (Option α))
    (cache : NfpCache α) (key : NfpKey) : NfpData α × NfpCache α × List String :=
  match cacheFind cache key with
  | some d0 =>
    if d0.truthy then (d0, cache, [])
    else ((globalNfpCompute useGpu computeGpu computeCpu cache key).data,
          (globalNfpCompute useGpu computeGpu computeCpu cache key).cache,
          (globalNfpCompute useGpu computeGpu computeCpu cache key).log)
  | none => ((globalNfpCompute useGpu computeGpu computeCpu cache key).data,
             (globalNfpCompute useGpu computeGpu computeCpu cache key).cache,
             (globalNfpCompute useGpu computeGpu computeCpu cache key).log)

/-- The `for p in parts_to_process` loop (lines 82-129): fetch or compute
each new placed part's master NFP; abort with `none` on an error sentinel
(`Skipping rotation`); transform computed NFPs to sheet coordinates. -/
def globalNfpLoop {α : Type} (useGpu : Bool)
    (computeGpu computeCpu : NfpKey → Except String (Option α))
    (transform : α → PlacedRef → α) (cand : CandInfo) (angle : ℤ) :
    List PlacedRef → NfpCache α → List α → List String →
    Option (List α) × NfpCache α × List String
  | [], cache, acc, logs => (some acc, cache, logs)
  | p :: ps, cache, acc, logs =>
    match globalNfpFetch useGpu computeGpu computeCpu cache (nfpKeyFor cand p angle) with
    | (.err msg, cache', dlogs) =>
      (none, cache', logs ++ dlogs ++ ["Skipping rotation due to NFP error: " ++ msg])
    | (.nfp poly, cache', dlogs) =>
      globalNfpLoop useGpu computeGpu computeCpu transform cand angle ps
        cache' (acc ++ [transform poly p]) (logs ++ dlogs)
    | (.empty, cache', dlogs) =>
      globalNfpLoop useGpu computeGpu computeCpu transform cand angle ps
        cache' acc (logs ++ dlogs)

/-- `MinkowskiEngine.get_global_nfp_for` (lines 50-159), for one cache entry
already initialized/retrieved: if the watermark is current return the entry
unchanged; otherwise process the newly placed parts, union the new NFPs
into the running total (`unary_union` and `union` collapsed into the
abstract `unionOp`), and advance the watermark.  Returns `none` when a
stored or fresh NFP error sentinel is met ("Skipping rotation"). -/
def getGlobalNfpFor {α : Type} (useGpu : Bool)
    (computeGpu computeCpu : NfpKey → Except String (Option α))
    (transform : α → PlacedRef → α) (unionOp : α → α → α)
    (cand : CandInfo) (angle : ℤ) (sheetParts : List PlacedRef)
    (entry : SheetNfpEntry α) (cache : NfpCache α) :
    Option (SheetNfpEntry α) × NfpCache α × List String :=
  if sheetParts.length ≤ entry.last_part_idx then (some entry, cache, [])
  else
    match globalNfpLoop useGpu computeGpu computeCpu transform cand angle
        (sheetParts.drop entry.last_part_idx) cache [] [] with
    | (none, cache', logs) => (none, cache', logs)
    | (some newPolys, cache', logs) =>
      let entry' : SheetNfpEntry α :=
        match newPolys with
        | [] => { entry with last_part_idx := sheetParts.length }
        | q :: qs =>
          let batch := qs.foldl unionOp q
          let total :=
            match entry.polygon with
            | none => batch
            | some t => unionOp t batch
          ⟨some total, sheetParts.length⟩
      (some entry', cache', logs)

/-! ### Top-level dispatch (`nesting_logic.py` lines 23-56) and
`BaseNester.__init__` (`base_nester.py` lines 11-26). -/

inductive NestAlgo where
  | genetic | gravity | minkowski | sat
  deriving DecidableEq, Repr

/-- The `nester_class` dict lookup (`nesting_logic.py` lines 38-43); note
the default algorithm string `"Grid Fill"` has no entry. -/
def algoLookup (name : String) : Option NestAlgo :=
  if name = "Genetic" then some .genetic
  else if name = "Gravity" then some .gravity
  else if name = "Minkowski" then some .minkowski
  else if name = "SAT" then some .sat
  else none

def shapelyAlgos : List String := ["Genetic", "Gravity", "Minkowski", "SAT"]

inductive NestLogicError where
  | notImplemented (algorithm : String)
  | dependencyMissing
  deriving DecidableEq, Repr

/-- The configuration stored by `BaseNester.__init__` that the claim
mentions: width/height as given, `rotation_steps` coerced to 1 when not
positive (`base_nester.py` line 14). -/
structure NesterInit where
  bin_width : ℚ
  bin_height : ℚ
  rotation_steps : ℤ
  deriving DecidableEq, Repr

def baseNesterInit (width height : ℚ) (rotation_steps : ℤ) : NesterInit :=
  ⟨width, height, if rotation_steps > 0 then rotation_steps else 1⟩

/-- The validation prefix of `nesting_logic.nest` (lines 38-55): unknown
algorithm raises `NotImplementedError`; a supported algorithm without
shapely raises `NestingDependencyError`; otherwise the nester is
constructed.  No check of `width`, `height` or `rotation_steps` occurs. -/
def nestDispatch (algorithm : String) (shapely_available : Bool)
    (width height : ℚ) (rotation_steps : ℤ) : Except NestLogicError NesterInit :=
  match algoLookup algorithm with
  | none => .error (.notImplemented algorithm)
  | some _ =>
    if shapelyAlgos.contains algorithm && !shapely_available then
      .error .dependencyMissing
    else .ok (baseNesterInit width height rotation_steps)

/-! ### Ordered crossover (`genetic_utils.py` lines 32-62) -/

/-- `child_p = [None] * size; child_p[start:end] = parent1[start:end]`:
the child template, built walking `parent1` with its index.  Slot `i` holds
`some parent1[i]` iff `start ≤ i < stop`. -/
def oxTemplate (start stop : ℕ) : ℕ → List Shape → List (Option Shape)
  | _, [] => []
  | i, p :: rest =>
    (if start ≤ i ∧ i < stop then some p else none) :: oxTemplate start stop (i + 1) rest

/-- The non-`None` entries of the template, i.e. the copied slice. -/
def oxSomes (t : List (Option Shape)) : List Shape := t.filterMap (fun o => o)

/-- `child_ids_set = {p.id for p in child_p if p is not None}` (computed
once, before the fill loop). -/
def oxSliceIds (t : List (Option Shape)) : List ℕ := (oxSomes t).map Shape.id

/-- The fill loop (`genetic_utils.py` lines 53-61): for each `None` slot,
advance `p2_index` past parts whose id is already in `child_ids_set` and
take the next one.  Running past the end of `parent2` (an `IndexError` in
Python) yields `none`. -/
def oxFill (sliceIds : List ℕ) :
    List (Option Shape) → List Shape → Option (List Shape)
  | [], _ => some []
  | some p :: rest, avail => (oxFill sliceIds rest avail).map (p :: ·)
  | none :: rest, avail =>
    match avail.dropWhile (fun q => decide (q.id ∈ sliceIds)) with
    | [] => none
    | q :: tail => (oxFill sliceIds rest tail).map (q :: ·)

/-- `ordered_crossover(parent1, parent2)` (`genetic_utils.py` lines 32-62),
with the randomly drawn slice bounds `start`/`stop` as parameters. -/
def ordered_crossover (parent1 parent2 : List Shape) (start stop : ℕ) :
    Option (List Shape) :=
  let t := oxTemplate start stop 0 parent1
  oxFill (oxSliceIds t) t parent2

/-- Reference interleaving of a template with a fill list: `None` slots
take successive fill elements.  Used to describe `oxFill`'s output. -/
def oxMerge : List (Option Shape) → List Shape → List Shape
  | [], _ => []
  | some p :: rest, fill => p :: oxMerge rest fill
  | none :: _, [] => []
  | none :: rest, q :: fs => q :: oxMerge rest fs

/-- Number of `None` slots of a template. -/
def oxNones (t : List (Option Shape)) : ℕ := t.countP (fun o => o.isNone)

/-! ### Concrete instances for witnesses and counterexamples -/

def poseW : Pose := ⟨(0, 0), 0⟩

/-- Anneal context used by the C7 witness: all toggles on, failing validity
oracle. -/
def annealCtxW : AnnealCtx :=
  ⟨⟨3, 5, true, true, false⟩, fun _ => (1, 2), fun _ => false, 4, (0, -1),
   fun _ => (1, 0), 1⟩

def validAlwaysW : Sheet → Shape → Bool := fun _ _ => true

def strategyIdentW : Shape → Sheet → Option Pose := fun p _ => some p.pose

def partW : Shape := ⟨0, 1, poseW⟩

def sheetW : Sheet := ⟨0, 20, 20, [⟨partW⟩]⟩

/-- Validity oracle for the C3 witness: the part must fit the sheet by
area (a stand-in for the bounding-box containment check of
`is_placement_valid`). -/
def validAreaW : Sheet → Shape → Bool :=
  fun sh q => decide (q.area ≤ sh.width * sh.height)

/-- A 30 x 30 part: larger than a 20 x 20 sheet in both dimensions. -/
def bigPartW : Shape := ⟨7, 900, poseW⟩

def keyW : NfpKey := ⟨"A", "B", 0, 0, 0, 0⟩

def computeOkW : NfpKey → Except String (Option ℕ) := fun _ => .ok (some 7)

def computeNoneW : NfpKey → Except String (Option ℕ) := fun _ => .ok none

def computeErrW : NfpKey → Except String (Option ℕ) := fun _ => .error "boom"

def placedW : PlacedRef := ⟨"A", 0, (0, 0)⟩

def candW : CandInfo := ⟨"B", 0, 0, 0⟩

def transformW : ℕ → PlacedRef → ℕ := fun a _ => a

def unionW : ℕ → ℕ → ℕ := fun a b => a + b

def entry0W : SheetNfpEntry ℕ := ⟨none, 0⟩

def p1W : List Shape := [⟨1, 1, poseW⟩, ⟨2, 1, poseW⟩, ⟨3, 1, poseW⟩, ⟨4, 1, poseW⟩]

def p2W : List Shape := [⟨3, 1, poseW⟩, ⟨1, 1, poseW⟩, ⟨4, 1, poseW⟩, ⟨2, 1, poseW⟩]

/-! ## Theorems -/

/-! ### Anneal/shake (claims C7, C10) -/

theorem annealAttempt_both_enabled (c : AnnealCtx) (initialBl : ℚ × ℚ)
    (initialAngle : ℚ) (i : ℕ) (pose : Pose) :
    annealAttempt c true true initialBl initialAngle i pose = (pose, false) := by
  simp [annealAttempt]

theorem annealGo_both_enabled (c : AnnealCtx) (initialBl : ℚ × ℚ)
    (initialAngle : ℚ) :
    ∀ (fuel i : ℕ) (pose : Pose),
      annealGo c true true initialBl initialAngle fuel i pose = (pose, none)
  | 0, _, _ => rfl
  | fuel + 1, i, pose => by
    rw [annealGo, annealAttempt_both_enabled]
    exact annealGo_both_enabled c initialBl initialAngle fuel (i + 1) pose

theorem pose_eta (p : Pose) : (p.moveTo p.pos.1 p.pos.2).setAngle p.angle = p := by
  cases p with
  | mk pos angle => cases pos; rfl

theorem pose_overwrite (q p : Pose) :
    (q.moveTo p.pos.1 p.pos.2).setAngle p.angle = p := by
  cases p with
  | mk pos angle => cases pos; rfl

/-- Claim C10: with both `rotate_enabled` and `translate_enabled` true (the
default arguments of `_anneal_part`), no perturbation is ever attempted —
the `if rotate and not translate / elif not rotate and translate` chain
leaves `is_valid` false on every iteration — so for every part, sheet
oracle and configuration the call returns the starting position and angle
and leaves the part state unchanged. -/
theorem anneal_part_both_enabled_returns_start (c : AnnealCtx) (pose : Pose) :
    annealPart c true true pose = (pose, (centroidOf c.geom pose, pose.angle)) := by
  unfold annealPart
  split
  · rfl
  · rw [annealGo_both_enabled]
    show ((pose.moveTo pose.pos.1 pose.pos.2).setAngle pose.angle,
          (centroidOf c.geom pose, pose.angle)) = _
    rw [pose_eta]

theorem annealAttempt_all_invalid {c : AnnealCtx} (hv : ∀ q, c.valid q = false)
    (re te : Bool) (initialBl : ℚ × ℚ) (initialAngle : ℚ) (i : ℕ) (pose : Pose) :
    (annealAttempt c re te initialBl initialAngle i pose).2 = false := by
  unfold annealAttempt tryRotationShake tryTranslationShake
  repeat' split
  all_goals first | rfl | exact hv _

theorem annealGo_all_invalid {c : AnnealCtx} (hv : ∀ q, c.valid q = false)
    (re te : Bool) (initialBl : ℚ × ℚ) (initialAngle : ℚ) :
    ∀ (fuel i : ℕ) (pose : Pose), ∃ p : Pose,
      annealGo c re te initialBl initialAngle fuel i pose = (p, none)
  | 0, _, pose => ⟨pose, rfl⟩
  | fuel + 1, i, pose => by
    rw [annealGo]
    rw [show (annealAttempt c re te initialBl initialAngle i pose) =
        ((annealAttempt c re te initialBl initialAngle i pose).1, false) from
      Prod.ext rfl (annealAttempt_all_invalid hv re te initialBl initialAngle i pose)]
    exact annealGo_all_invalid hv re te initialBl initialAngle fuel (i + 1) _

/-- Claim C7: every shake attempt first resets the part exactly to the
captured pre-shake pose before applying its single perturbation, so the
pose an attempt tests is a function of the pre-shake pose and the attempt
index alone — independent of whatever pose the previous failed attempt left
the part in (conjuncts 1 and 2 give the tested pose in closed form, with no
dependence on the incoming `pose`); and if no attempt passes the validity
check, `_anneal_part` ends with the part at exactly its pre-shake position
and angle and returns the starting `(position, rotation)` (conjunct 3). -/
theorem anneal_reset_and_revert (c : AnnealCtx) (initialBl : ℚ × ℚ)
    (initialAngle : ℚ) (side : ℤ) (i : ℕ) (pose pose' : Pose) :
    (c.cfg.anneal_rotate_enabled = true → c.rotation_steps > 1 →
      (tryRotationShake c initialBl initialAngle side i pose).1 =
        ⟨initialBl,
         qmod360 (initialAngle +
           (360 / (c.rotation_steps : ℚ)) * ((i / 2 : ℕ) + 1) * (side : ℤ))⟩)
  ∧ (c.cfg.anneal_translate_enabled = true →
      (tryTranslationShake c initialBl initialAngle side i pose).1 =
        ⟨(initialBl.1 +
            (if c.cfg.anneal_random_shake_direction then -(c.randDirs i).2
             else -c.gravityDir.2) * (c.cfg.step_size * ((i / 2 : ℕ) + 1)) * (side : ℤ),
          initialBl.2 +
            (if c.cfg.anneal_random_shake_direction then (c.randDirs i).1
             else c.gravityDir.1) * (c.cfg.step_size * ((i / 2 : ℕ) + 1)) * (side : ℤ)),
         initialAngle⟩)
  ∧ ((∀ q, c.valid q = false) → ∀ re te : Bool,
      annealPart c re te pose' = (pose', (centroidOf c.geom pose', pose'.angle))) := by
  refine ⟨fun h1 h2 => ?_, fun h1 => ?_, fun hv re te => ?_⟩
  · unfold tryRotationShake
    rw [if_pos ⟨h1, h2⟩]
    rfl
  · unfold tryTranslationShake
    rw [if_pos h1]
    simp only [Pose.moveTo, Pose.moveBy, Pose.setAngle]
    split <;> rfl
  · unfold annealPart
    split
    · rfl
    · obtain ⟨p, hp⟩ :=
        annealGo_all_invalid hv re te pose'.pos pose'.angle c.cfg.anneal_steps 0 pose'
      rw [hp]
      show ((p.moveTo pose'.pos.1 pose'.pos.2).setAngle pose'.angle,
            (centroidOf c.geom pose', pose'.angle)) = _
      rw [pose_overwrite]

theorem anneal_reset_and_revert_witness :
    (tryRotationShake annealCtxW (2, 3) 90 1 0 ⟨(7, 8), 45⟩).1 = ⟨(2, 3), 180⟩
  ∧ (tryTranslationShake annealCtxW (2, 3) 90 1 0 ⟨(7, 8), 45⟩).1 = ⟨(7, 3), 90⟩
  ∧ annealPart annealCtxW true false ⟨(1, 2), 0⟩ = (⟨(1, 2), 0⟩, ((2, 4), 0)) := by
  have h := anneal_reset_and_revert annealCtxW (2, 3) 90 1 0 ⟨(7, 8), 45⟩ ⟨(1, 2), 0⟩
  refine ⟨?_, ?_, ?_⟩
  · rw [h.1 rfl (by decide)]
    simp only [annealCtxW, qmod360, Pose.mk.injEq]
    norm_num
  · rw [h.2.1 rfl]
    simp only [annealCtxW, Pose.mk.injEq]
    norm_num
  · rw [h.2.2 (fun _ => rfl) true false]
    simp only [annealCtxW, centroidOf, Prod.mk.injEq]
    norm_num

/-! ### Configuration validation (claim C4) -/

/-- Claim C4 counterexample: a supported algorithm with negative sheet
dimensions and `rotation_steps = 0` is NOT rejected — `nesting_logic.nest`
performs no check on `width`, `height` or `rotation_steps`, and
`BaseNester.__init__` silently coerces non-positive `rotation_steps` to 1,
so nesting work proceeds. -/
theorem invalid_config_accepted_cex :
    nestDispatch "Gravity" true (-1) (-1) 0 = .ok ⟨-1, -1, 1⟩ := by
  rfl

/-- Claim C4 amended: an unsupported algorithm name is rejected with a
distinct unsupported-algorithm condition before any nesting work, and a
missing shapely dependency with a distinct dependency condition; but calls
with non-positive sheet dimensions are accepted unchanged, and
`rotation_steps <= 0` is silently coerced to 1 rather than rejected. -/
theorem nest_dispatch_validation (algorithm : String) (w h : ℚ) (rs : ℤ)
    (hbad : algoLookup algorithm = none) :
    nestDispatch algorithm true w h rs = .error (.notImplemented algorithm)
  ∧ nestDispatch "Gravity" false w h rs = .error .dependencyMissing
  ∧ nestDispatch "Gravity" true w h rs = .ok (baseNesterInit w h rs)
  ∧ (rs ≤ 0 → (baseNesterInit w h rs).rotation_steps = 1)
  ∧ (0 < rs → (baseNesterInit w h rs).rotation_steps = rs)
  ∧ (baseNesterInit w h rs).bin_width = w
  ∧ (baseNesterInit w h rs).bin_height = h := by
  refine ⟨?_, rfl, rfl, fun hle => ?_, fun hlt => ?_, rfl, rfl⟩
  · unfold nestDispatch
    rw [hbad]
  · unfold baseNesterInit
    rw [if_neg (by omega)]
  · unfold baseNesterInit
    rw [if_pos hlt]

theorem nest_dispatch_validation_witness :
    nestDispatch "Grid Fill" true (-1) (-1) 0 = .error (.notImplemented "Grid Fill")
  ∧ nestDispatch "Gravity" false (-1) (-1) 0 = .error .dependencyMissing
  ∧ nestDispatch "Gravity" true (-1) (-1) 0 = .ok (baseNesterInit (-1) (-1) 0)
  ∧ ((0 : ℤ) ≤ 0 → (baseNesterInit (-1) (-1) 0).rotation_steps = 1)
  ∧ ((0 : ℤ) < 0 → (baseNesterInit (-1) (-1) 0).rotation_steps = 0)
  ∧ (baseNesterInit (-1) (-1) 0).bin_width = -1
  ∧ (baseNesterInit (-1) (-1) 0).bin_height = -1 :=
  nest_dispatch_validation "Grid Fill" (-1) (-1) 0 (by decide)

/-! ### Global NFP cache determinism (claim C9) -/

/-- Claim C9 counterexample: the key `keyW` IS already present in the global
NFP cache (bound to the cached empty "no NFP" dict), yet both computation
entry points treat the falsy empty dict as a miss: the geometry oracle is
re-invoked (one call, not zero) and a freshly computed object replaces the
cached one. -/
theorem nfp_cache_empty_entry_recomputed_cex :
    cacheFind [(keyW, (NfpData.empty : NfpData ℕ))] keyW = some NfpData.empty
  ∧ (calculateAndCacheNfp computeOkW [(keyW, NfpData.empty)] keyW).geometryCalls = 1
  ∧ (calculateAndCacheNfp computeOkW [(keyW, NfpData.empty)] keyW).data = NfpData.nfp 7
  ∧ (calculateAndCacheNfpGpu computeOkW computeOkW
        [(keyW, NfpData.empty)] keyW).geometryCalls = 1 := by
  refine ⟨by decide, by decide, by decide, by decide⟩

/-- Claim C9 amended: for a key cached with a truthy value (a computed NFP
dict or the error sentinel) both the CPU and the GPU entry points return
exactly the stored entry, leave the cache unchanged, and invoke no geometry
routine; a key cached as the empty dict is falsy at the `if
cached_nfp_data:` check and is recomputed and re-cached instead. -/
theorem nfp_cache_truthy_hit {α : Type}
    (computeC computeG : NfpKey → Except String (Option α))
    (cache : NfpCache α) (key : NfpKey) (d : NfpData α)
    (hd : cacheFind cache key = some d) (ht : d.truthy = true) :
    calculateAndCacheNfp computeC cache key = ⟨d, cache, 0, []⟩
  ∧ calculateAndCacheNfpGpu computeG computeC cache key = ⟨d, cache, 0, []⟩ := by
  constructor
  · unfold calculateAndCacheNfp
    rw [hd]
    dsimp only
    rw [if_pos ht]
  · unfold calculateAndCacheNfpGpu
    rw [hd]
    dsimp only
    rw [if_pos ht]

theorem nfp_cache_truthy_hit_witness :
    calculateAndCacheNfp computeOkW [(keyW, NfpData.nfp 5)] keyW
      = ⟨NfpData.nfp 5, [(keyW, NfpData.nfp 5)], 0, []⟩
  ∧ calculateAndCacheNfpGpu computeErrW computeOkW [(keyW, NfpData.nfp 5)] keyW
      = ⟨NfpData.nfp 5, [(keyW, NfpData.nfp 5)], 0, []⟩ :=
  nfp_cache_truthy_hit computeOkW computeErrW
    [(keyW, NfpData.nfp 5)] keyW (NfpData.nfp 5) (by decide) (by decide)

/-! ### GPU fallback (claim C6) -/

/-- Claim C6: if the GPU backend is unavailable the engine is constructed
with the GPU path disabled and the fallback is logged; and when the GPU
computation for a (non-cached) key throws, `_calculate_and_cache_nfp_gpu`
returns the CPU path's result dict for the same inputs, leaves the cache
exactly as the CPU path does, and logs the fallback — the failure is never
propagated (the result is an ordinary `CalcResult`, not an exception). -/
theorem gpu_failure_never_fatal {α : Type} (bw bh ss : ℚ) (de : Bool)
    (computeG computeC : NfpKey → Except String (Option α)) (cache : NfpCache α)
    (key : NfpKey) (e : String)
    (hmiss : cacheFind cache key = none) (hthrow : computeG key = .error e) :
    (engineInit bw bh ss de true false).1.use_gpu = false
  ∧ (engineInit bw bh ss de true false).2 = [gpuUnavailableMsg]
  ∧ (calculateAndCacheNfpGpu computeG computeC cache key).data
      = (calculateAndCacheNfp computeC cache key).data
  ∧ (calculateAndCacheNfpGpu computeG computeC cache key).cache
      = (calculateAndCacheNfp computeC cache key).cache
  ∧ ("GPU NFP Error: " ++ e ++ ". Falling back to CPU.")
      ∈ (calculateAndCacheNfpGpu computeG computeC cache key).log := by
  have hgpu : calculateAndCacheNfpGpu computeG computeC cache key
      = calcNfpFreshGpu computeG computeC cache key := by
    unfold calculateAndCacheNfpGpu
    rw [hmiss]
  have hfresh : calcNfpFreshGpu computeG computeC cache key
      = ⟨(calculateAndCacheNfp computeC cache key).data,
         (calculateAndCacheNfp computeC cache key).cache,
         (calculateAndCacheNfp computeC cache key).geometryCalls + 1,
         ("GPU NFP Error: " ++ e ++ ". Falling back to CPU.")
           :: (calculateAndCacheNfp computeC cache key).log⟩ := by
    unfold calcNfpFreshGpu
    rw [hthrow]
  rw [hgpu, hfresh]
  exact ⟨rfl, rfl, rfl, rfl, List.mem_cons_self _ _⟩

theorem gpu_failure_never_fatal_witness :
    (engineInit 20 20 5 true true false).1.use_gpu = false
  ∧ (engineInit 20 20 5 true true false).2 = [gpuUnavailableMsg]
  ∧ (calculateAndCacheNfpGpu computeErrW computeOkW [] keyW).data
      = (calculateAndCacheNfp computeOkW [] keyW).data
  ∧ (calculateAndCacheNfpGpu computeErrW computeOkW [] keyW).cache
      = (calculateAndCacheNfp computeOkW [] keyW).cache
  ∧ ("GPU NFP Error: " ++ "boom" ++ ". Falling back to CPU.")
      ∈ (calculateAndCacheNfpGpu computeErrW computeOkW [] keyW).log :=
  gpu_failure_never_fatal 20 20 5 true computeErrW computeOkW [] keyW "boom"
    (by rfl) (by rfl)

/-! ### NFP error sentinel (claim C5) -/

/-- Claim C5 counterexample: with the pair/angle key cached as the `'error'`
sentinel, `get_global_nfp_for` returns `None` — abandoning the whole
candidate rotation ("Skipping rotation due to NFP error") — whereas the
code's actual no-restriction treatment (the cached/computed empty dict,
second conjunct) keeps the rotation usable and just contributes no
forbidden region.  The error sentinel is therefore NOT treated as imposing
no restriction. -/
theorem nfp_error_sentinel_skips_rotation_cex :
    (getGlobalNfpFor false computeOkW computeOkW transformW unionW candW 0 [placedW]
        entry0W [(nfpKeyFor candW placedW 0, NfpData.err "boom")]).1 = none
  ∧ (getGlobalNfpFor false computeOkW computeNoneW transformW unionW candW 0 [placedW]
        entry0W [(nfpKeyFor candW placedW 0, NfpData.empty)]).1
      = some ⟨none, 1⟩
  ∧ (getGlobalNfpFor false computeOkW computeOkW transformW unionW candW 0 [placedW]
        entry0W [(nfpKeyFor candW placedW 0, NfpData.err "boom")]).2.2
      = ["Skipping rotation due to NFP error: " ++ "boom"] := by
  refine ⟨rfl, rfl, rfl⟩

/-- Claim C5 amended: an exception in the NFP computation for a pair/angle
is caught and logged, the `'error'` sentinel is cached under that key, and
a later request for the same key returns the sentinel without invoking any
geometry routine; but a (stored or fresh) error sentinel makes
`get_global_nfp_for` return `None` for the whole candidate rotation
("Skipping rotation"), blocking that rotation, rather than treating the
pair/angle as imposing no restriction; no exception escapes, so the run
continues. -/
theorem nfp_error_sentinel_behavior {α : Type}
    (computeC computeC2 computeG2 : NfpKey → Except String (Option α))
    (cache : NfpCache α) (e : String) (useGpu : Bool)
    (transform : α → PlacedRef → α) (unionOp : α → α → α)
    (cand : CandInfo) (angle : ℤ) (pRef : PlacedRef) (entry : SheetNfpEntry α)
    (hmiss : cacheFind cache (nfpKeyFor cand pRef angle) = none)
    (hthrow : computeC (nfpKeyFor cand pRef angle) = .error e)
    (hidx : entry.last_part_idx = 0) :
    (calculateAndCacheNfp computeC cache (nfpKeyFor cand pRef angle)).data = .err e
  ∧ (calculateAndCacheNfp computeC cache (nfpKeyFor cand pRef angle)).log
      = ["Error calculating NFP: " ++ e]
  ∧ cacheFind (calculateAndCacheNfp computeC cache (nfpKeyFor cand pRef angle)).cache
      (nfpKeyFor cand pRef angle) = some (.err e)
  ∧ calculateAndCacheNfp computeC2
      (calculateAndCacheNfp computeC cache (nfpKeyFor cand pRef angle)).cache
      (nfpKeyFor cand pRef angle)
      = ⟨.err e, (calculateAndCacheNfp computeC cache (nfpKeyFor cand pRef angle)).cache, 0, []⟩
  ∧ (getGlobalNfpFor useGpu computeG2 computeC2 transform unionOp cand angle [pRef]
      entry (calculateAndCacheNfp computeC cache (nfpKeyFor cand pRef angle)).cache).1
      = none := by
  have hcalc : calculateAndCacheNfp computeC cache (nfpKeyFor cand pRef angle)
      = ⟨.err e, (nfpKeyFor cand pRef angle, .err e) :: cache, 1,
         ["Error calculating NFP: " ++ e]⟩ := by
    unfold calculateAndCacheNfp calcNfpFresh
    rw [hmiss, hthrow]
  have hfind : cacheFind ((nfpKeyFor cand pRef angle, (NfpData.err e : NfpData α)) :: cache)
      (nfpKeyFor cand pRef angle) = some (.err e) := by
    unfold cacheFind
    rw [List.find?_cons_of_pos _ (by simp)]
    rfl
  have hhit : calculateAndCacheNfp computeC2
      ((nfpKeyFor cand pRef angle, (NfpData.err e : NfpData α)) :: cache)
      (nfpKeyFor cand pRef angle)
      = ⟨.err e, (nfpKeyFor cand pRef angle, .err e) :: cache, 0, []⟩ := by
    unfold calculateAndCacheNfp
    rw [hfind]
    rfl
  have hfetch : globalNfpFetch useGpu computeG2 computeC2
      ((nfpKeyFor cand pRef angle, (NfpData.err e : NfpData α)) :: cache)
      (nfpKeyFor cand pRef angle)
      = (.err e, (nfpKeyFor cand pRef angle, .err e) :: cache, []) := by
    unfold globalNfpFetch
    rw [hfind]
    rfl
  have hloop : globalNfpLoop useGpu computeG2 computeC2 transform cand angle [pRef]
      ((nfpKeyFor cand pRef angle, (NfpData.err e : NfpData α)) :: cache) [] []
      = (none, (nfpKeyFor cand pRef angle, .err e) :: cache,
         [] ++ [] ++ ["Skipping rotation due to NFP error: " ++ e]) := by
    unfold globalNfpLoop
    rw [hfetch]
  rw [hcalc]
  refine ⟨rfl, rfl, hfind, hhit, ?_⟩
  unfold getGlobalNfpFor
  rw [if_neg (by rw [hidx]; simp), hidx]
  show (match globalNfpLoop useGpu computeG2 computeC2 transform cand angle
      (List.drop 0 [pRef]) ((nfpKeyFor cand pRef angle, .err e) :: cache) [] [] with
    | (none, cache', logs) => ((none : Option (SheetNfpEntry α)), cache', logs)
    | (some newPolys, cache', logs) => _).1 = none
  rw [show List.drop 0 [pRef] = [pRef] from rfl, hloop]

theorem nfp_error_sentinel_behavior_witness :
    (calculateAndCacheNfp computeErrW [] (nfpKeyFor candW placedW 0)).data
      = .err "boom"
  ∧ (calculateAndCacheNfp computeErrW [] (nfpKeyFor candW placedW 0)).log
      = ["Error calculating NFP: " ++ "boom"]
  ∧ cacheFind (calculateAndCacheNfp computeErrW [] (nfpKeyFor candW placedW 0)).cache
      (nfpKeyFor candW placedW 0) = some (.err "boom")
  ∧ calculateAndCacheNfp computeOkW
      (calculateAndCacheNfp computeErrW [] (nfpKeyFor candW placedW 0)).cache
      (nfpKeyFor candW placedW 0)
      = ⟨.err "boom",
         (calculateAndCacheNfp computeErrW [] (nfpKeyFor candW placedW 0)).cache, 0, []⟩
  ∧ (getGlobalNfpFor false computeOkW computeOkW transformW unionW candW 0 [placedW]
      entry0W (calculateAndCacheNfp computeErrW [] (nfpKeyFor candW placedW 0)).cache).1
      = none :=
  nfp_error_sentinel_behavior computeErrW computeOkW computeOkW [] "boom" false
    transformW unionW candW 0 placedW entry0W (by rfl) (by rfl) (by rfl)

/-! ### Base packing loop: unplaceable parts (claim C3) -/

theorem tryExistingSheets_none (valid : Sheet → Shape → Bool)
    (strategy : Shape → Sheet → Option Pose) (p : Shape) :
    ∀ sheets : List Sheet,
      (∀ s ∈ sheets, attemptPlacementOnSheet valid strategy p s = none) →
      tryExistingSheets valid strategy p sheets = none
  | [], _ => rfl
  | s :: rest, h => by
    unfold tryExistingSheets
    rw [h s (List.mem_cons_self s rest),
      tryExistingSheets_none valid strategy p rest
        (fun s' hs' => h s' (List.mem_cons_of_mem _ hs'))]
    rfl

/-- Claim C3: for a part rejected by every existing sheet, `nest` opens one
fresh empty sheet (id = current sheet count) and tries it; if that attempt
also fails, the part goes to the unplaced list, the fresh sheet is not kept
(the remaining run proceeds with the sheet list unchanged), and the loop is
a total function — no exception is raised. -/
theorem nest_unplaceable_part (valid : Sheet → Shape → Bool)
    (strategy : Shape → Sheet → Option Pose) (w h : ℚ) (sheets : List Sheet)
    (p : Shape) (rest : List Shape)
    (h1 : ∀ s ∈ sheets, attemptPlacementOnSheet valid strategy p s = none)
    (h2 : attemptPlacementOnSheet valid strategy p ⟨sheets.length, w, h, []⟩ = none) :
    nestLoop valid strategy w h sheets (p :: rest)
      = ((nestLoop valid strategy w h sheets rest).1,
         p :: (nestLoop valid strategy w h sheets rest).2) := by
  show (match tryExistingSheets valid strategy p sheets with
    | some sheets' => nestLoop valid strategy w h sheets' rest
    | none =>
      match attemptPlacementOnSheet valid strategy p ⟨sheets.length, w, h, []⟩ with
      | some s' => nestLoop valid strategy w h (sheets ++ [s']) rest
      | none =>
        ((nestLoop valid strategy w h sheets rest).1,
         p :: (nestLoop valid strategy w h sheets rest).2)) = _
  rw [tryExistingSheets_none valid strategy p sheets h1, h2]

/-- Witness: a single 30 x 30 part (area 900) on an empty 20 x 20 run is
reported unplaced, with zero sheets in the result. -/
theorem nest_unplaceable_part_witness :
    nestLoop validAreaW strategyIdentW 20 20 [] [bigPartW] = ([], [bigPartW]) := by
  have h := nest_unplaceable_part validAreaW strategyIdentW 20 20 [] bigPartW []
    (by intro s hs; cases hs)
    (by norm_num [attemptPlacementOnSheet, strategyIdentW, validAreaW, bigPartW])
  simpa [nestLoop] using h

/-! ### Base packing loop: conservation (claim C1) -/

theorem attempt_some_elim {valid : Sheet → Shape → Bool}
    {strategy : Shape → Sheet → Option Pose} {part : Shape} {sheet s' : Sheet}
    (h : attemptPlacementOnSheet valid strategy part sheet = some s') :
    ∃ q : Pose, strategy part sheet = some q
      ∧ valid sheet { part with pose := q } = true
      ∧ s' = sheet.addPart ⟨{ part with pose := q }⟩ := by
  unfold attemptPlacementOnSheet at h
  cases hs : strategy part sheet with
  | none => rw [hs] at h; simp at h
  | some q =>
    rw [hs] at h
    dsimp only at h
    by_cases hv : valid sheet { part with pose := q } = true
    · rw [if_pos hv] at h
      injection h with h
      exact ⟨q, rfl, hv, h.symm⟩
    · rw [if_neg hv] at h
      simp at h

theorem sheetPartIds_addPart (s : Sheet) (pp : PlacedPart) :
    sheetPartIds (s.addPart pp) = sheetPartIds s ++ [pp.shape.id] := by
  simp [sheetPartIds, Sheet.addPart]

theorem sheetsPartIds_cons (s : Sheet) (rest : List Sheet) :
    sheetsPartIds (s :: rest) = sheetPartIds s ++ sheetsPartIds rest := by
  simp [sheetsPartIds]

theorem sheetsPartIds_append (a b : List Sheet) :
    sheetsPartIds (a ++ b) = sheetsPartIds a ++ sheetsPartIds b := by
  simp [sheetsPartIds]

theorem tryExistingSheets_ids {valid : Sheet → Shape → Bool}
    {strategy : Shape → Sheet → Option Pose} {p : Shape} :
    ∀ {sheets sheets' : List Sheet},
      tryExistingSheets valid strategy p sheets = some sheets' →
      (sheetsPartIds sheets').Perm (p.id :: sheetsPartIds sheets)
  | [], _, h => by cases h
  | s :: rest, sheets', h => by
    unfold tryExistingSheets at h
    cases ha : attemptPlacementOnSheet valid strategy p s with
    | some s2 =>
      rw [ha] at h
      injection h with h
      subst h
      obtain ⟨q, _, _, hadd⟩ := attempt_some_elim ha
      subst hadd
      rw [sheetsPartIds_cons, sheetsPartIds_cons, sheetPartIds_addPart]
      rw [List.append_assoc]
      exact List.perm_middle
    | none =>
      rw [ha] at h
      cases hrec : tryExistingSheets valid strategy p rest with
      | none => rw [hrec] at h; cases h
      | some rest' =>
        rw [hrec] at h
        injection h with h
        subst h
        have ih := tryExistingSheets_ids hrec
        rw [sheetsPartIds_cons, sheetsPartIds_cons]
        exact (ih.append_left (sheetPartIds s)).trans List.perm_middle

theorem nestLoop_ids (valid : Sheet → Shape → Bool)
    (strategy : Shape → Sheet → Option Pose) (w h : ℚ) :
    ∀ (rest : List Shape) (sheets : List Sheet),
      ((sheetsPartIds (nestLoop valid strategy w h sheets rest).1)
        ++ ((nestLoop valid strategy w h sheets rest).2.map Shape.id)).Perm
      (sheetsPartIds sheets ++ rest.map Shape.id)
  | [], sheets => by simp [nestLoop]
  | p :: rest, sheets => by
    unfold nestLoop
    cases ht : tryExistingSheets valid strategy p sheets with
    | some sheets' =>
      have ih := nestLoop_ids valid strategy w h rest sheets'
      have hperm := tryExistingSheets_ids ht
      exact ih.trans ((hperm.append_right (rest.map Shape.id)).trans
        List.perm_middle.symm)
    | none =>
      cases ha : attemptPlacementOnSheet valid strategy p
          ⟨sheets.length, w, h, []⟩ with
      | some s2 =>
        have ih := nestLoop_ids valid strategy w h rest (sheets ++ [s2])
        obtain ⟨q, _, _, hadd⟩ := attempt_some_elim ha
        have hids : sheetsPartIds (sheets ++ [s2])
            = sheetsPartIds sheets ++ [p.id] := by
          subst hadd
          rw [sheetsPartIds_append, sheetsPartIds_cons, sheetPartIds_addPart]
          simp [sheetsPartIds, sheetPartIds]
        rw [hids, List.append_assoc] at ih
        exact ih
      | none =>
        have ih := nestLoop_ids valid strategy w h rest sheets
        exact List.perm_middle.trans ((ih.cons p.id).trans List.perm_middle.symm)

/-- Claim C1: `BaseNester.nest` conserves parts — the multiset of part ids
across all returned sheets plus the unplaced list is a permutation of the
input part ids (each input part ends up in exactly one place), and in
particular the number of placed parts plus unplaced parts equals the number
of input parts. -/
theorem nest_conservation (valid : Sheet → Shape → Bool)
    (strategy : Shape → Sheet → Option Pose) (w h : ℚ) (parts : List Shape) :
    ((sheetsPartIds (nest valid strategy w h parts).1)
      ++ ((nest valid strategy w h parts).2.map Shape.id)).Perm
      (parts.map Shape.id)
  ∧ ((nest valid strategy w h parts).1.map (fun s => s.parts.length)).sum
      + (nest valid strategy w h parts).2.length = parts.length := by
  have hmain := nestLoop_ids valid strategy w h (sortPartsByArea parts) []
  have hsorted : (sortPartsByArea parts).Perm parts :=
    List.mergeSort_perm parts _
  have h1 : ((sheetsPartIds (nest valid strategy w h parts).1)
      ++ ((nest valid strategy w h parts).2.map Shape.id)).Perm
      (parts.map Shape.id) := by
    refine hmain.trans ?_
    simpa [sheetsPartIds] using hsorted.map Shape.id
  refine ⟨h1, ?_⟩
  have hlen := h1.length_eq
  simp only [List.length_append, sheetsPartIds, List.length_flatten,
    List.map_map, List.length_map] at hlen
  have hfun : (List.length ∘ sheetPartIds) = (fun s : Sheet => s.parts.length) := by
    funext s
    simp [sheetPartIds]
  rw [hfun] at hlen
  exact hlen

/-! ### Base packing loop: validity at acceptance (claim C2) -/

theorem validAtAcceptance_empty (valid : Sheet → Shape → Bool) (n : ℕ) (w h : ℚ) :
    validAtAcceptance valid ⟨n, w, h, []⟩ :=
  fun _ _ hip => absurd hip (by simp)

theorem validAtAcceptance_addPart {valid : Sheet → Shape → Bool} {s : Sheet}
    {placed : Shape} (hs : validAtAcceptance valid s)
    (hv : valid s placed = true) :
    validAtAcceptance valid (s.addPart ⟨placed⟩) := by
  intro i pp hip
  simp only [Sheet.addPart] at hip ⊢
  rcases Nat.lt_or_ge i s.parts.length with hlt | hge
  · have hip' : s.parts[i]? = some pp := by
      rwa [List.getElem?_append, if_pos hlt] at hip
    rw [List.take_append_of_le_length (le_of_lt hlt)]
    exact hs i pp hip'
  · rcases Nat.lt_or_ge i (s.parts.length + 1) with h1 | h1
    · have hi : i = s.parts.length := by omega
      subst hi
      have hpp : pp = ⟨placed⟩ := by
        rw [List.getElem?_append, if_neg (by omega)] at hip
        simp at hip
        exact hip.symm
      subst hpp
      rw [List.take_left]
      exact hv
    · exfalso
      rw [List.getElem?_eq_none (by simp; omega)] at hip
      cases hip

theorem tryExistingSheets_validAtAcceptance {valid : Sheet → Shape → Bool}
    {strategy : Shape → Sheet → Option Pose} {p : Shape} :
    ∀ {sheets sheets' : List Sheet},
      tryExistingSheets valid strategy p sheets = some sheets' →
      (∀ s ∈ sheets, validAtAcceptance valid s) →
      ∀ s ∈ sheets', validAtAcceptance valid s
  | [], _, h, _ => by cases h
  | s0 :: rest, sheets', h, hall => by
    unfold tryExistingSheets at h
    cases ha : attemptPlacementOnSheet valid strategy p s0 with
    | some s2 =>
      rw [ha] at h
      injection h with h
      subst h
      intro s hs
      rcases List.mem_cons.mp hs with hh | ht
      · subst hh
        obtain ⟨q, _, hv, hadd⟩ := attempt_some_elim ha
        subst hadd
        exact validAtAcceptance_addPart (hall s0 (List.mem_cons_self _ _)) hv
      · exact hall s (List.mem_cons_of_mem _ ht)
    | none =>
      rw [ha] at h
      cases hrec : tryExistingSheets valid strategy p rest with
      | none => rw [hrec] at h; cases h
      | some rest' =>
        rw [hrec] at h
        injection h with h
        subst h
        intro s hs
        rcases List.mem_cons.mp hs with hh | ht
        · subst hh
          exact hall s (List.mem_cons_self _ _)
        · exact tryExistingSheets_validAtAcceptance hrec
            (fun s' hs' => hall s' (List.mem_cons_of_mem _ hs')) s ht

theorem nestLoop_validAtAcceptance (valid : Sheet → Shape → Bool)
    (strategy : Shape → Sheet → Option Pose) (w h : ℚ) :
    ∀ (rest : List Shape) (sheets : List Sheet),
      (∀ s ∈ sheets, validAtAcceptance valid s) →
      ∀ s ∈ (nestLoop valid strategy w h sheets rest).1, validAtAcceptance valid s
  | [], _, hall => by
    simpa [nestLoop] using hall
  | p :: rest, sheets, hall => by
    unfold nestLoop
    cases ht : tryExistingSheets valid strategy p sheets with
    | some sheets' =>
      exact nestLoop_validAtAcceptance valid strategy w h rest sheets'
        (tryExistingSheets_validAtAcceptance ht hall)
    | none =>
      cases ha : attemptPlacementOnSheet valid strategy p
          ⟨sheets.length, w, h, []⟩ with
      | some s2 =>
        refine nestLoop_validAtAcceptance valid strategy w h rest (sheets ++ [s2]) ?_
        intro s hs
        rcases List.mem_append.mp hs with hsl | hsr
        · exact hall s hsl
        · have hse : s = s2 := by simpa using hsr
          subst hse
          obtain ⟨q, _, hv, hadd⟩ := attempt_some_elim ha
          subst hadd
          exact validAtAcceptance_addPart
            (validAtAcceptance_empty valid sheets.length w h) hv
      | none =>
        exact fun s hs => nestLoop_validAtAcceptance valid strategy w h rest sheets hall s hs

/-- Claim C2: a part is added to a sheet only through
`_attempt_placement_on_sheet`, which calls `sheet.add_part` only when the
strategy returned a placement AND the final `is_placement_valid` re-check
passes (an invalid returned placement is discarded and the attempt returns
`False`); hence every `PlacedPart` on any sheet returned by `nest`
satisfied the sheet's validity predicate against exactly the sheet state at
the moment it was accepted. -/
theorem nest_placed_parts_validated (valid : Sheet → Shape → Bool)
    (strategy : Shape → Sheet → Option Pose) (w h : ℚ) (parts : List Shape)
    (s : Sheet) (hs : s ∈ (nest valid strategy w h parts).1) :
    validAtAcceptance valid s :=
  nestLoop_validAtAcceptance valid strategy w h (sortPartsByArea parts) []
    (fun _ hmem => absurd hmem (List.not_mem_nil _)) s hs

theorem nest_placed_parts_validated_witness :
    validAtAcceptance validAlwaysW sheetW :=
  nest_placed_parts_validated validAlwaysW strategyIdentW 20 20 [partW] sheetW
    (by
      have hnest : (nest validAlwaysW strategyIdentW 20 20 [partW]).1 = [sheetW] := by
        unfold nest sortPartsByArea
        rw [List.mergeSort_singleton]
        rfl
      rw [hnest]
      exact List.mem_singleton.mpr rfl)

/-! ### Ordered crossover (claim C8) -/

theorem oxNones_cons_some (p : Shape) (t : List (Option Shape)) :
    oxNones (some p :: t) = oxNones t := by
  simp [oxNones, List.countP_cons]

theorem oxNones_cons_none (t : List (Option Shape)) :
    oxNones (none :: t) = oxNones t + 1 := by
  simp [oxNones, List.countP_cons]

theorem oxNones_add_somes :
    ∀ t : List (Option Shape), oxNones t + (oxSomes t).length = t.length
  | [] => rfl
  | some p :: t => by
    have ih := oxNones_add_somes t
    rw [oxNones_cons_some]
    simp only [oxSomes, List.filterMap_cons] at ih ⊢
    simp only [List.length_cons]
    omega
  | none :: t => by
    have ih := oxNones_add_somes t
    rw [oxNones_cons_none]
    simp only [oxSomes, List.filterMap_cons] at ih ⊢
    simp only [List.length_cons]
    omega

theorem dropWhile_slice (S : List ℕ) :
    ∀ l : List Shape, l.filter (fun q => !decide (q.id ∈ S)) ≠ [] →
      ∃ q tail, l.dropWhile (fun q => decide (q.id ∈ S)) = q :: tail
        ∧ decide (q.id ∈ S) = false
        ∧ l.filter (fun q => !decide (q.id ∈ S))
            = q :: tail.filter (fun q => !decide (q.id ∈ S))
  | [], h => absurd rfl h
  | x :: xs, h => by
    cases hbx : decide (x.id ∈ S) with
    | true =>
      have hfil : (x :: xs).filter (fun q => !decide (q.id ∈ S))
          = xs.filter (fun q => !decide (q.id ∈ S)) := by
        simp [List.filter_cons, hbx]
      rw [hfil] at h
      obtain ⟨q, tail, h1, h2, h3⟩ := dropWhile_slice S xs h
      refine ⟨q, tail, ?_, h2, ?_⟩
      · rw [List.dropWhile_cons, if_pos hbx, h1]
      · rw [hfil, h3]
    | false =>
      refine ⟨x, xs, ?_, hbx, ?_⟩
      · rw [List.dropWhile_cons, if_neg (by simp [hbx])]
      · simp [List.filter_cons, hbx]

theorem oxFill_eq_merge (S : List ℕ) :
    ∀ (t : List (Option Shape)) (avail : List Shape),
      oxNones t ≤ (avail.filter (fun q => !decide (q.id ∈ S))).length →
      oxFill S t avail
        = some (oxMerge t
            ((avail.filter (fun q => !decide (q.id ∈ S))).take (oxNones t)))
  | [], avail, _ => rfl
  | some p :: t, avail, hle => by
    have hle' : oxNones t ≤ (avail.filter (fun q => !decide (q.id ∈ S))).length := by
      rwa [oxNones_cons_some] at hle
    rw [oxFill, oxFill_eq_merge S t avail hle', oxNones_cons_some]
    rfl
  | none :: t, avail, hle => by
    have hne : avail.filter (fun q => !decide (q.id ∈ S)) ≠ [] := by
      intro h0
      rw [oxNones_cons_none, h0] at hle
      simp at hle
    obtain ⟨q, tail, hdrop, hbad, hfil⟩ := dropWhile_slice S avail hne
    have hle' : oxNones t ≤ (tail.filter (fun q => !decide (q.id ∈ S))).length := by
      rw [oxNones_cons_none, hfil] at hle
      simp only [List.length_cons] at hle
      omega
    rw [oxFill, hdrop]
    dsimp only
    rw [oxFill_eq_merge S t tail hle', hfil, oxNones_cons_none, List.take_succ_cons]
    rfl

theorem oxMerge_length :
    ∀ (t : List (Option Shape)) (fill : List Shape), fill.length = oxNones t →
      (oxMerge t fill).length = t.length
  | [], _, _ => rfl
  | some p :: t, fill, h => by
    rw [oxMerge]
    simp only [List.length_cons]
    rw [oxMerge_length t fill (by rwa [oxNones_cons_some] at h)]
  | none :: t, fill, h => by
    rw [oxNones_cons_none] at h
    cases fill with
    | nil => simp at h
    | cons q fs =>
      rw [oxMerge]
      simp only [List.length_cons] at h ⊢
      rw [oxMerge_length t fs (by omega)]

theorem oxMerge_perm :
    ∀ (t : List (Option Shape)) (fill : List Shape), fill.length = oxNones t →
      (oxMerge t fill).Perm (oxSomes t ++ fill)
  | [], fill, h => by
    have h0 : fill = [] := List.eq_nil_of_length_eq_zero (by simpa [oxNones] using h)
    subst h0
    exact List.Perm.refl _
  | some p :: t, fill, h => by
    rw [oxMerge]
    have ih := oxMerge_perm t fill (by rwa [oxNones_cons_some] at h)
    simpa [oxSomes, List.filterMap_cons] using ih.cons p
  | none :: t, fill, h => by
    rw [oxNones_cons_none] at h
    cases fill with
    | nil => simp at h
    | cons q fs =>
      rw [oxMerge]
      simp only [List.length_cons] at h
      have ih := oxMerge_perm t fs (by omega)
      have h1 := ih.cons q
      have h2 : (q :: (oxSomes t ++ fs)).Perm (oxSomes t ++ q :: fs) :=
        List.perm_middle.symm
      simpa [oxSomes, List.filterMap_cons] using h1.trans h2

theorem oxMerge_get :
    ∀ (t : List (Option Shape)) (fill : List Shape) (i : ℕ) (p : Shape),
      fill.length = oxNones t → t[i]? = some (some p) →
      (oxMerge t fill)[i]? = some p
  | [], _, i, p, _, hti => by simp at hti
  | some x :: t, fill, i, p, hlen, hti => by
    cases i with
    | zero =>
      simp only [List.getElem?_cons_zero, Option.some.injEq] at hti
      rw [oxMerge, List.getElem?_cons_zero, hti]
    | succ i =>
      rw [oxMerge]
      simp only [List.getElem?_cons_succ] at hti ⊢
      exact oxMerge_get t fill i p (by rwa [oxNones_cons_some] at hlen) hti
  | none :: t, fill, i, p, hlen, hti => by
    rw [oxNones_cons_none] at hlen
    cases fill with
    | nil => simp at hlen
    | cons q fs =>
      cases i with
      | zero => simp at hti
      | succ i =>
        rw [oxMerge]
        simp only [List.getElem?_cons_succ] at hti ⊢
        simp only [List.length_cons] at hlen
        exact oxMerge_get t fs i p (by omega) hti

theorem oxTemplate_length (start stop : ℕ) :
    ∀ (j : ℕ) (l : List Shape), (oxTemplate start stop j l).length = l.length
  | _, [] => rfl
  | j, p :: l => by
    rw [oxTemplate]
    simp only [List.length_cons]
    rw [oxTemplate_length start stop (j + 1) l]

theorem oxTemplate_get (start stop : ℕ) :
    ∀ (l : List Shape) (j i : ℕ),
      (oxTemplate start stop j l)[i]?
        = (l[i]?).map (fun p => if start ≤ j + i ∧ j + i < stop then some p else none)
  | [], j, i => by simp [oxTemplate]
  | p :: l, j, 0 => by
    rw [oxTemplate]
    simp
  | p :: l, j, i + 1 => by
    rw [oxTemplate]
    simp only [List.getElem?_cons_succ]
    rw [oxTemplate_get start stop l (j + 1) i]
    have harith : j + 1 + i = j + (i + 1) := by omega
    rw [harith]

theorem oxSomes_template_sublist (start stop : ℕ) :
    ∀ (j : ℕ) (l : List Shape), (oxSomes (oxTemplate start stop j l)).Sublist l
  | _, [] => List.Sublist.refl _
  | j, p :: l => by
    rw [oxTemplate]
    by_cases hc : start ≤ j ∧ j < stop
    · rw [if_pos hc]
      simp only [oxSomes, List.filterMap_cons]
      exact (oxSomes_template_sublist start stop (j + 1) l).cons₂ p
    · rw [if_neg hc]
      simp only [oxSomes, List.filterMap_cons]
      exact (oxSomes_template_sublist start stop (j + 1) l).cons p

theorem filter_mem_of_sublist_nodup {S L : List ℕ} (hSL : S.Sublist L) :
    L.Nodup → L.filter (fun a => decide (a ∈ S)) = S := by
  induction hSL with
  | slnil => intro _; rfl
  | @cons l₁ l₂ a hsub ih =>
    intro hnd
    have hna := (List.nodup_cons.mp hnd).1
    have hnaS : a ∉ l₁ := fun hmem => hna (hsub.subset hmem)
    rw [List.filter_cons, if_neg (by simpa using hnaS)]
    exact ih (List.nodup_cons.mp hnd).2
  | @cons₂ l₁ l₂ a hsub ih =>
    intro hnd
    have hna := (List.nodup_cons.mp hnd).1
    rw [List.filter_cons, if_pos (by simp)]
    have hcongr : ∀ x ∈ l₂, (decide (x ∈ a :: l₁) : Bool) = decide (x ∈ l₁) := by
      intro x hx
      have hxa : x ≠ a := fun he => hna (he ▸ hx)
      simp [List.mem_cons, hxa]
    rw [List.filter_congr hcongr, ih (List.nodup_cons.mp hnd).2]

theorem map_id_filter (P : ℕ → Bool) :
    ∀ l : List Shape,
      (l.filter (fun q => P q.id)).map Shape.id = (l.map Shape.id).filter P
  | [] => rfl
  | x :: l => by
    rw [List.filter_cons, List.map_cons, List.filter_cons]
    cases hP : P x.id with
    | true => simp [hP, map_id_filter P l]
    | false => simp [hP, map_id_filter P l]

theorem oxFill_perm (t : List (Option Shape)) (p1ids : List ℕ) (p2 : List Shape)
    (hSsub : ((oxSomes t).map Shape.id).Sublist p1ids)
    (hnodup : p1ids.Nodup)
    (hperm : (p2.map Shape.id).Perm p1ids)
    (htlen : t.length = p1ids.length) :
    ∃ child, oxFill ((oxSomes t).map Shape.id) t p2 = some child
      ∧ child.length = t.length
      ∧ (child.map Shape.id).Perm p1ids
      ∧ ∀ (i : ℕ) (p : Shape), t[i]? = some (some p) → child[i]? = some p := by
  have hfilS : p1ids.filter (fun a => decide (a ∈ (oxSomes t).map Shape.id))
      = (oxSomes t).map Shape.id := filter_mem_of_sublist_nodup hSsub hnodup
  have hsplit := List.filter_append_perm
      (fun a => decide (a ∈ (oxSomes t).map Shape.id)) p1ids
  have hcount : oxNones t + ((oxSomes t).map Shape.id).length = p1ids.length := by
    have h1 := oxNones_add_somes t
    rw [List.length_map]
    omega
  have hlen1 : (p1ids.filter
        (fun a => !decide (a ∈ (oxSomes t).map Shape.id))).length = oxNones t := by
    have htot := hsplit.length_eq
    rw [List.length_append, hfilS] at htot
    omega
  have hp2f : ((p2.filter
        (fun q => !decide (q.id ∈ (oxSomes t).map Shape.id))).map Shape.id)
      = (p2.map Shape.id).filter (fun a => !decide (a ∈ (oxSomes t).map Shape.id)) :=
    map_id_filter (fun a => !decide (a ∈ (oxSomes t).map Shape.id)) p2
  have hfillLen : (p2.filter
        (fun q => !decide (q.id ∈ (oxSomes t).map Shape.id))).length = oxNones t := by
    have h2 := (hperm.filter
      (fun a => !decide (a ∈ (oxSomes t).map Shape.id))).length_eq
    have h3 : (p2.filter
          (fun q => !decide (q.id ∈ (oxSomes t).map Shape.id))).length
        = ((p2.filter
            (fun q => !decide (q.id ∈ (oxSomes t).map Shape.id))).map Shape.id).length :=
      (List.length_map _ _).symm
    rw [h3, hp2f, h2, hlen1]
  have hfill := oxFill_eq_merge ((oxSomes t).map Shape.id) t p2
    (le_of_eq hfillLen.symm)
  rw [show ((p2.filter
        (fun q => !decide (q.id ∈ (oxSomes t).map Shape.id))).take (oxNones t))
      = p2.filter (fun q => !decide (q.id ∈ (oxSomes t).map Shape.id)) from by
    rw [← hfillLen]
    exact List.take_length _] at hfill
  refine ⟨_, hfill, oxMerge_length t _ hfillLen, ?_, ?_⟩
  · have hm := (oxMerge_perm t _ hfillLen).map Shape.id
    rw [List.map_append, hp2f] at hm
    refine hm.trans ?_
    refine ((hperm.filter _).append_left ((oxSomes t).map Shape.id)).trans ?_
    rw [hfilS] at hsplit
    exact hsplit
  · intro i p hti
    exact oxMerge_get t _ i p hfillLen hti

/-- Claim C8: for parents of equal length over the same set of distinct part
ids, `ordered_crossover` succeeds (never runs past the end of `parent2`)
and returns a child of that length whose part ids are a permutation of the
parents' ids (each id exactly once), with the `[start, stop)` slice copied
verbatim from `parent1` and the remaining slots filled from `parent2` in
order, skipping ids already present. -/
theorem ordered_crossover_permutation (p1 p2 : List Shape) (start stop : ℕ)
    (hperm : (p2.map Shape.id).Perm (p1.map Shape.id))
    (hnodup : (p1.map Shape.id).Nodup) :
    ∃ child, ordered_crossover p1 p2 start stop = some child
      ∧ child.length = p1.length
      ∧ (child.map Shape.id).Perm (p1.map Shape.id)
      ∧ ∀ i, start ≤ i → i < stop → child[i]? = p1[i]? := by
  obtain ⟨child, hchild, hclen, hcperm, hcpos⟩ :=
    oxFill_perm (oxTemplate start stop 0 p1) (p1.map Shape.id) p2
      ((oxSomes_template_sublist start stop 0 p1).map Shape.id)
      hnodup hperm
      ((oxTemplate_length start stop 0 p1).trans (List.length_map _ _).symm)
  have hclen' : child.length = p1.length :=
    hclen.trans (oxTemplate_length start stop 0 p1)
  refine ⟨child, hchild, hclen', hcperm, ?_⟩
  intro i h1 h2
  by_cases hin : i < p1.length
  · have hp1i : p1[i]? = some (p1[i]) := List.getElem?_eq_getElem hin
    have hti : (oxTemplate start stop 0 p1)[i]? = some (some (p1[i])) := by
      rw [oxTemplate_get start stop p1 0 i, hp1i]
      simp [Nat.zero_add, h1, h2]
    rw [hcpos i (p1[i]) hti, hp1i]
  · have hnone : p1[i]? = none := List.getElem?_eq_none (by omega)
    rw [hnone]
    exact List.getElem?_eq_none (by omega)

theorem ordered_crossover_permutation_witness :
    ∃ child, ordered_crossover p1W p2W 1 3 = some child
      ∧ child.length = p1W.length
      ∧ (child.map Shape.id).Perm (p1W.map Shape.id)
      ∧ ∀ i, 1 ≤ i → i < 3 → child[i]? = p1W[i]? :=
  ordered_crossover_permutation p1W p2W 1 3 (by decide) (by decide)

end NestingWB
